import Mathlib

/-!
Verification of the media-URL resolver and the publication view-model logic
of the lens-protocol-workshop front end.

JavaScript strings are embedded as character lists (`JsStr`): the JS
`substring(n, s.length)` is `List.drop n` and `startsWith` is
`List.isPrefixOf`.  The resolver `formatPicture` (src/lens-app/utils.ts)
takes an arbitrary JS value and either rewrites a `MediaSet` descriptor to
a gateway URL string or passes the value through, so its domain and
codomain are one type `Picture` with a constructor for plain strings.
Publication normalization and the per-item rendering come from
src/lens-app/app/profile/[handle]/page.tsx; rendering is embedded in
`Except` so that a JS `TypeError` (property access on `undefined`) is an
explicit `error` value.
-/

/-- A JS string, as its sequence of characters. -/
abbrev JsStr := List Char

/-- Embed a Lean string literal as a JS string. -/
def jsStr (s : String) : JsStr := s.data

/-- The `original` record of a `MediaSet` descriptor (and of a media
entry): a `url` and an optional `mimeType`. -/
structure Original where
  url : JsStr
  mimeType : Option JsStr
  deriving DecidableEq

/-- A JS value that can reach `formatPicture`: a `MediaSet` descriptor, an
`NftImage` descriptor, or a plain string (which carries no `__typename`
property, hence the passthrough branch). -/
inductive Picture where
  | mediaSet (original : Original)
  | nftImage (contractAddress : JsStr) (tokenId : JsStr) (uri : JsStr) (chainId : Nat)
  | str (s : JsStr)
  deriving DecidableEq

/-- The `__typename` property of a `Picture` value; a plain string has
none (reading it in JS yields `undefined`). -/
def Picture.typename : Picture → Option JsStr
  | .mediaSet _ => some (jsStr "MediaSet")
  | .nftImage _ _ _ _ => some (jsStr "NftImage")
  | .str _ => none

/-- src/lens-app/utils.ts, `formatPicture`: on a `MediaSet`, rewrite
`ipfs://` urls to the Infura gateway (dropping 7 characters), rewrite
`ar://` urls to the Arweave gateway (dropping 4 characters, as the source
does), and return any other url unchanged; on a non-`MediaSet` value,
return the input itself. -/
def formatPicture (picture : Picture) : Picture :=
  match picture with
  | .mediaSet original =>
    if (jsStr "ipfs://").isPrefixOf original.url then
      .str (jsStr "http://lens.infura-ipfs.io/ipfs/" ++ original.url.drop 7)
    else if (jsStr "ar://").isPrefixOf original.url then
      .str (jsStr "http://arweave.net/" ++ original.url.drop 4)
    else
      .str original.url
  | picture => picture

/-- A list is a `isPrefixOf`-prefix of itself followed by anything. -/
theorem isPrefixOf_append (p t : List Char) : p.isPrefixOf (p ++ t) = true := by
  induction p with
  | nil => simp
  | cons a as ih => simp [List.isPrefixOf_cons₂, ih]

/-- C3: for every `MediaSet` whose url starts with `ipfs://`, exactly the
7 prefix characters are stripped and the Infura gateway base is
prepended. -/
theorem formatPicture_ipfs (hash : JsStr) (mt : Option JsStr) :
    formatPicture (.mediaSet ⟨jsStr "ipfs://" ++ hash, mt⟩) =
      .str (jsStr "http://lens.infura-ipfs.io/ipfs/" ++ hash) := by
  simp only [formatPicture]
  rw [if_pos (isPrefixOf_append _ _)]
  rfl

/-- C1: for every `MediaSet` whose url starts with `ar://`, the result is
the Arweave gateway base followed by the url stripped from index 4 — one
character short of the 5-character prefix, so the hash arrives with the
leftover `/` still attached. -/
theorem formatPicture_ar_strips_four (hash : JsStr) (mt : Option JsStr) :
    formatPicture (.mediaSet ⟨jsStr "ar://" ++ hash, mt⟩) =
      .str (jsStr "http://arweave.net/" ++ ((jsStr "ar://" ++ hash).drop 4)) ∧
    (jsStr "ar://" ++ hash).drop 4 = '/' :: hash := by
  have h1 : (jsStr "ipfs://").isPrefixOf (jsStr "ar://" ++ hash) = false := rfl
  constructor
  · simp only [formatPicture]
    rw [h1, if_neg (by simp), if_pos (isPrefixOf_append _ _)]
  · rfl

/-- C8: a value whose `__typename` is not `MediaSet` is returned
unchanged. -/
theorem formatPicture_passthrough (p : Picture)
    (h : p.typename ≠ some (jsStr "MediaSet")) : formatPicture p = p := by
  cases p with
  | mediaSet o => exact absurd rfl h
  | nftImage a b c d => rfl
  | str s => rfl

/-- Witness for C8 at a concrete plain-string input. -/
theorem formatPicture_passthrough_witness :
    (Picture.str (jsStr "abc")).typename ≠ some (jsStr "MediaSet") ∧
      formatPicture (Picture.str (jsStr "abc")) = Picture.str (jsStr "abc") :=
  ⟨by decide, formatPicture_passthrough _ (by decide)⟩

/-- Every `MediaSet` input makes `formatPicture` return a plain string:
each of the three url branches does. -/
theorem formatPicture_mediaSet_str (o : Original) :
    ∃ s, formatPicture (.mediaSet o) = .str s := by
  simp only [formatPicture]
  split
  · exact ⟨_, rfl⟩
  · split
    · exact ⟨_, rfl⟩
    · exact ⟨_, rfl⟩

/-- C6: `formatPicture` is total — every input yields a result: a
`MediaSet` always yields a string (each of the three url branches
returns one), and every other value is returned unchanged, the only
non-rewriting path.  Side effects cannot arise in this embedding, and the
source function performs none. -/
theorem formatPicture_total (p : Picture) :
    (∃ o, p = .mediaSet o ∧ ∃ s, formatPicture p = .str s) ∨
      (p.typename ≠ some (jsStr "MediaSet") ∧ formatPicture p = p) := by
  cases p with
  | mediaSet o => exact .inl ⟨o, rfl, formatPicture_mediaSet_str o⟩
  | nftImage a b c d => exact .inr ⟨by simp only [Picture.typename]; decide, rfl⟩
  | str s => exact .inr ⟨by simp only [Picture.typename]; decide, rfl⟩

/-- C10: `formatPicture` is idempotent — a `MediaSet` input becomes a
plain string, which a second application passes through, and every other
input is already passed through. -/
theorem formatPicture_idempotent (p : Picture) :
    formatPicture (formatPicture p) = formatPicture p := by
  cases p with
  | mediaSet o =>
    obtain ⟨s, hs⟩ := formatPicture_mediaSet_str o
    rw [hs]
    rfl
  | nftImage a b c d => rfl
  | str s => rfl

/-- A media entry of `metadata.media`; its `original` record may be
absent (reading it yields `undefined`, which optional chaining guards). -/
structure MediaEntry where
  original : Option Original
  deriving DecidableEq

/-- The `metadata` record of a publication: a text `content` and a
`media` sequence, each possibly absent. -/
structure Metadata where
  content : Option JsStr
  media : Option (List MediaEntry)
  deriving DecidableEq

/-- A publication as described by the data model: a `Post` carrying a
possibly absent `metadata`, or a `Mirror` carrying the mirrored
publication `mirrorOf`. -/
inductive Publication where
  | post (metadata : Option Metadata)
  | mirror (mirrorOf : Publication)
  deriving DecidableEq

/-- `true` exactly on `Post`-shaped publications. -/
def Publication.isPost : Publication → Bool
  | .post _ => true
  | .mirror _ => false

/-- `true` when a publication, if it is a `Mirror`, mirrors a
`Post`-shaped publication. -/
def mirrorOfIsPost : Publication → Bool
  | .mirror m => m.isPost
  | _ => true

/-- src/lens-app/app/profile/[handle]/page.tsx lines 126 to 132 (the page
variant querying with limit 20): map each publication to its `mirrorOf`
when its variant is `Mirror`, and keep it unchanged otherwise. -/
def unwrapPublications (publications : List Publication) : List Publication :=
  publications.map (fun publication =>
    match publication with
    | .mirror mirrorOf => mirrorOf
    | _ => publication)

/-- src/lens-app/app/profile/[handle]/page.tsx lines 273 to 279 (the page
variant querying with limit 10): the same per-element transformation,
transcribed from its own occurrence. -/
def unwrapPublications2 (publications : List Publication) : List Publication :=
  publications.map (fun publication =>
    match publication with
    | .mirror mirrorOf => mirrorOf
    | _ => publication)

/-- The `metadata` property read off a publication object; on a `Mirror`
(as modelled, it carries only `mirrorOf`) the read yields `undefined`. -/
def Publication.getMetadata : Publication → Option Metadata
  | .post metadata => metadata
  | .mirror _ => none

/-- What rendering one feed item produces: the text content (absent
renders nothing) and the image url, if an image is rendered. -/
structure RenderedItem where
  content : Option JsStr
  image : Option JsStr
  deriving DecidableEq

/-- src/lens-app/app/profile/[handle]/page.tsx lines 136 to 152, one feed
item: evaluate `pub.metadata.content` (no optional chaining — an absent
metadata raises a TypeError), then evaluate
`pub.metadata?.media[0]?.original && [mimeTypes].includes(...) && img`:
indexing an absent `media` sequence raises a TypeError; an absent first
entry or absent `original` is `undefined`, hence falsy, and suppresses
the image; otherwise the image renders exactly when `mimeType` equals
`image/jpeg` or `image/png`, pointing at `media[0].original.url`. -/
def renderPubItem (pub : Publication) : Except String RenderedItem :=
  match pub.getMetadata with
  | none => .error "TypeError: cannot read content of undefined"
  | some md =>
    match md.media with
    | none => .error "TypeError: cannot read index 0 of undefined"
    | some media =>
      match media.head?.bind MediaEntry.original with
      | none => .ok ⟨md.content, none⟩
      | some o =>
        if o.mimeType = some (jsStr "image/jpeg") ∨ o.mimeType = some (jsStr "image/png") then
          .ok ⟨md.content, some o.url⟩
        else
          .ok ⟨md.content, none⟩

/-- C2: the Mirror-unwrapping transformation is a one-to-one element-wise
map — the output has the length of the input, and the element at each
index is the input element at that index, replaced by its `mirrorOf`
exactly when it is a `Mirror`. -/
theorem unwrapPublications_elementwise (ps : List Publication) :
    (unwrapPublications ps).length = ps.length ∧
    ∀ i : Nat, (unwrapPublications ps)[i]? =
      (ps[i]?).map (fun p =>
        match p with
        | .mirror m => m
        | q => q) := by
  constructor
  · simp [unwrapPublications]
  · intro i
    simp only [unwrapPublications, List.getElem?_map]
    cases ps[i]? with
    | none => rfl
    | some p => cases p <;> rfl

/-- C9: the two normalization passes of the two page variants compute the
same function. -/
theorem unwrapPublications_agree (ps : List Publication) :
    unwrapPublications ps = unwrapPublications2 ps := rfl

/-- C4: when every `Mirror` in the input mirrors a `Post`-shaped
publication, the normalized list contains only `Post`-shaped entries; and
the unwrapping is one level deep — a `Mirror` nested inside `mirrorOf`
is returned as that `Mirror`, not unwrapped further. -/
theorem unwrapPublications_all_posts (ps : List Publication)
    (h : ∀ p ∈ ps, mirrorOfIsPost p = true) :
    (∀ q ∈ unwrapPublications ps, q.isPost = true) ∧
    (∀ q : Publication, unwrapPublications [.mirror (.mirror q)] = [.mirror q]) := by
  constructor
  · intro q hq
    simp only [unwrapPublications, List.mem_map] at hq
    obtain ⟨p, hp, rfl⟩ := hq
    have hmp := h p hp
    cases p with
    | post md => exact rfl
    | mirror m => exact hmp
  · intro q
    rfl

/-- Witness for C4 at a concrete two-element feed. -/
theorem unwrapPublications_all_posts_witness :
    (∀ p ∈ [Publication.mirror (.post none), Publication.post none],
      mirrorOfIsPost p = true) ∧
    (∀ q ∈ unwrapPublications [Publication.mirror (.post none), Publication.post none],
      q.isPost = true) :=
  ⟨by decide,
    (unwrapPublications_all_posts
      [Publication.mirror (.post none), Publication.post none] (by decide)).1⟩

/-- C5: rendering a displayed post whose metadata and media sequence are
present raises no error, and its image block depends only on the first
media entry: the image renders, pointing at that entry `original.url`,
exactly when that entry is present with an `original` whose `mimeType` is
`image/jpeg` or `image/png`; any other mime type, an absent `mimeType`,
an absent `original`, or an empty media sequence suppresses the image. -/
theorem renderPubItem_first_media (c : Option JsStr) (l : List MediaEntry) :
    renderPubItem (.post (some ⟨c, some l⟩)) =
      .ok ⟨c,
        match l.head?.bind MediaEntry.original with
        | none => none
        | some o =>
          if o.mimeType = some (jsStr "image/jpeg") ∨ o.mimeType = some (jsStr "image/png")
          then some o.url
          else none⟩ := by
  simp only [renderPubItem, Publication.getMetadata]
  cases l.head?.bind MediaEntry.original with
  | none => rfl
  | some o =>
    by_cases hm :
      o.mimeType = some (jsStr "image/jpeg") ∨ o.mimeType = some (jsStr "image/png")
    · simp [hm]
    · simp [hm]

/-- C7 counterexample: a publication whose metadata record is absent is
not tolerated — rendering it raises a TypeError at
`pub.metadata.content`, since that access is not optional-chained. -/
theorem renderPubItem_missing_metadata_raises :
    renderPubItem (.post none) =
      .error "TypeError: cannot read content of undefined" := rfl

/-- C7 amended: only the accesses actually guarded by optional chaining
tolerate absence — an absent first media entry or an absent `original`
renders no image and no error; but an absent metadata record raises a
TypeError at `pub.metadata.content`, and an absent media sequence raises
a TypeError when `media[0]` is indexed. -/
theorem renderPubItem_optional_chaining_partial :
    (∀ c : Option JsStr, renderPubItem (.post (some ⟨c, some []⟩)) = .ok ⟨c, none⟩) ∧
    (∀ c : Option JsStr,
      renderPubItem (.post (some ⟨c, some [⟨none⟩]⟩)) = .ok ⟨c, none⟩) ∧
    renderPubItem (.post none) = .error "TypeError: cannot read content of undefined" ∧
    (∀ c : Option JsStr,
      renderPubItem (.post (some ⟨c, none⟩)) =
        .error "TypeError: cannot read index 0 of undefined") :=
  ⟨fun _ => rfl, fun _ => rfl, rfl, fun _ => rfl⟩
